import Mathlib

/-
Verification of sofilab's remote session/execution/transfer engine
(`sofilab.py`) against its natural-language specification.

Each definition below is a shallow embedding of one Python function,
translated directly from the source.  External effects (TCP probes,
paramiko authentication, the remote filesystem, remote command exit
statuses) are modelled as explicit oracle parameters, so that every
definition stays executable and the call/probe sequence the code performs
is recorded where a claim speaks about it.
-/

namespace Sofilab

/-! ## Port resolution (`determine_ssh_port`, sofilab.py lines 679-702)

`check_port_open(host, port)` is modelled by the oracle `isOpen : Nat → Bool`
(the host is fixed for one call).  Besides the result (`some port` or `none`,
mirroring `return port` / `return None`), the embedding records the list of
ports probed, in order, so that "no second probe is attempted" is expressible.
-/

def determine_ssh_port (isOpen : Nat → Bool) (configured_port : Nat) :
    Option Nat × List Nat :=
  -- `if check_port_open(host, configured_port): return configured_port`
  if isOpen configured_port then
    (some configured_port, [configured_port])
  else if configured_port ≠ 22 then
    -- `if check_port_open(host, 22): return 22` else `return None`
    if isOpen 22 then (some 22, [configured_port, 22])
    else (none, [configured_port, 22])
  else
    -- configured port is 22 and closed: no fallback probe, `return None`
    (none, [configured_port])

/-! ## Port field of a parsed profile (`parse_conf` / `flush_server`,
sofilab.py lines 338-343)

`port_s = acc.get("port", "22").strip()` followed by `int(port_s)` with
`except ValueError: port = 22`.  `pyInt` models Python's `int(str)` for the
strings that reach it: optional sign, decimal digits, with single
underscores permitted between digits (Python accepts `"2_2"`), `None` where
Python raises `ValueError`.
-/

def pyIntDigits : List Char → Option (List Char)
  | [] => none
  | [c] => if c.isDigit then some [c] else none
  | c :: d :: rest =>
    if c.isDigit then
      if d = '_' then
        -- an underscore must be followed by a further digit run
        match rest with
        | [] => none
        | _ => (pyIntDigits rest).map (fun l => c :: l)
      else (pyIntDigits (d :: rest)).map (fun l => c :: l)
    else none

def digitsToNat (l : List Char) : Nat :=
  l.foldl (fun acc c => acc * 10 + (c.toNat - '0'.toNat)) 0

def stripChars (l : List Char) : List Char :=
  ((l.dropWhile Char.isWhitespace).reverse.dropWhile Char.isWhitespace).reverse

def pyInt (s : String) : Option Int :=
  let t := stripChars s.data
  match t with
  | '-' :: rest => (pyIntDigits rest).map (fun l => -(digitsToNat l : Int))
  | '+' :: rest => (pyIntDigits rest).map (fun l => (digitsToNat l : Int))
  | _ => (pyIntDigits t).map (fun l => (digitsToNat l : Int))

/-- Port computed by `flush_server` from the accumulated key/value pairs:
`none` models an absent `port` key (default string `"22"`), a failed
`int()` conversion falls back to 22 (`pyInt` already strips whitespace,
matching the source's `.strip()`).  No range validation is performed. -/
def profile_port (port_val : Option String) : Int :=
  match port_val with
  | none => 22
  | some s =>
    match pyInt s with
    | some v => v
    | none => 22

/-! ## Effective script arguments (`run_scripts` lines 1506-1510 and
`run_single_script` lines 1573-1577)

Python:
`if script_args is not None and len(script_args) > 0: eff = script_args`
`else: eff = sc.script_args_map.get(script_name) or sc.default_script_args`.
`or` takes the right operand whenever the left is `None` **or** empty. -/

def eff_args (script_args : Option (List String))
    (script_args_map : String → Option (List String))
    (default_script_args : List String) (script_name : String) :
    List String :=
  match script_args with
  | some l =>
    if l.length > 0 then l
    else
      match script_args_map script_name with
      | some a => if a.isEmpty then default_script_args else a
      | none => default_script_args
  | none =>
    match script_args_map script_name with
    | some a => if a.isEmpty then default_script_args else a
    | none => default_script_args

/-! ## Script upload (`upload_script`, sofilab.py lines 999-1051)

The primary SFTP branch and the shell-stream fallback.  `sftpOk` models
whether the SFTP subsystem works end-to-end (open, stat/mkdir, put); when it
does not, the fallback runs `sh -lc 'cd ~ && umask 077; mkdir -p dir && cat
> path'`, streams the bytes, reads the exit status into `_` and returns the
remote path without inspecting that status.  `fallbackExit` is the exit
status of that remote command; `error e` models an uncaught exception. -/

inductive UploadOutcome where
  | ok (remote_path : String)
  | error (msg : String)
  deriving DecidableEq, Repr

def upload_script (sftpOk : Bool) (fallbackExit : Int) (script_name : String)
    (remote_rel_dir : String) : UploadOutcome :=
  let remote_dir := remote_rel_dir
  let remote_path := remote_dir ++ "/" ++ script_name
  if sftpOk then
    UploadOutcome.ok remote_path
  else
    -- fallback: `_ = chan.recv_exit_status(); return remote_path`
    let _discarded := fallbackExit
    UploadOutcome.ok remote_path

/-! ## Remote execution command (`execute_remote_script`, sofilab.py
lines 1296-1299)

The code builds the shell command string

  `cd ~ && chmod +x P && SHELL[-e] P ARGS ; rc=$?; rm -f P; exit $rc`

where `P` is the quoted remote path of the uploaded artifact.  The command
is embedded as an AST whose constructors correspond one-to-one to the
fragments of that string, plus standard POSIX semantics for `&&` and `;`.
The remote state tracked is whether the artifact file exists; `scriptExit`
is the exit status the script itself would produce when run. -/

structure ShState where
  artifact : Bool
  lastCode : Int
  rcVar : Int
  deriving DecidableEq, Repr

inductive ShCmd where
  | cdHome
  | chmodArtifact
  | runArtifact
  | captureRC
  | rmArtifact
  | exitRC
  | andSeq (a b : ShCmd)
  | semi (a b : ShCmd)

/-- POSIX evaluation of the command fragments. `cd ~` succeeds; `chmod +x P`
fails when the file is missing; running the script requires the file (a
missing file gives 127) and otherwise exits with the script's own status;
`rc=$?` stores the last status; `rm -f P` deletes the file and succeeds
even when it is already gone; `exit $rc` makes the stored status the final
one.  `a && b` runs `b` only after a zero status; `a ; b` always runs `b`. -/
def shEval (scriptExit : Int) : ShCmd → ShState → ShState
  | ShCmd.cdHome, st => { st with lastCode := 0 }
  | ShCmd.chmodArtifact, st =>
    { st with lastCode := if st.artifact then 0 else 1 }
  | ShCmd.runArtifact, st =>
    { st with lastCode := if st.artifact then scriptExit else 127 }
  | ShCmd.captureRC, st => { st with rcVar := st.lastCode, lastCode := 0 }
  | ShCmd.rmArtifact, st => { st with artifact := false, lastCode := 0 }
  | ShCmd.exitRC, st => { st with lastCode := st.rcVar }
  | ShCmd.andSeq a b, st =>
    let st1 := shEval scriptExit a st
    if st1.lastCode = 0 then shEval scriptExit b st1 else st1
  | ShCmd.semi a b, st => shEval scriptExit b (shEval scriptExit a st)

/-- The exact shape of the constructed command:
`((cd ~ && chmod +x P) && SHELL P ARGS) ; (rc=$? ; (rm -f P ; exit $rc))`. -/
def deployCmd : ShCmd :=
  ShCmd.semi
    (ShCmd.andSeq (ShCmd.andSeq ShCmd.cdHome ShCmd.chmodArtifact)
      ShCmd.runArtifact)
    (ShCmd.semi ShCmd.captureRC (ShCmd.semi ShCmd.rmArtifact ShCmd.exitRC))

/-- Result of `execute_remote_script`: the remote state after the composed
command and its final exit status (which the Python function returns via
`chan.recv_exit_status()`). -/
def execute_remote_script (scriptExit : Int) (st : ShState) : ShState :=
  shEval scriptExit deployCmd st

/-! ## Multi-script runner (`run_scripts`, sofilab.py lines 1461-1539)

Per iteration the code resolves the port, checks the local script file,
connects, uploads and executes; each of the first three failures makes the
whole runner return 1 before any upload.  A non-zero execution status `rc`
is returned immediately (`return rc`); otherwise the loop proceeds to the
next script, and after the last one the runner returns 0.  The empty
scripts list returns 0 up front.  The environment of iteration `i` is an
oracle record; the embedding additionally logs the indices of the scripts
that were uploaded-and-executed, in order. -/

structure IterEnv where
  portOk : Bool
  scriptFound : Bool
  connectOk : Bool
  execCode : Int

def run_scripts_go (env : Nat → IterEnv) : Nat → List String → Int × List Nat
  | _, [] => (0, [])
  | i, _ :: rest =>
    let e := env i
    if ¬ e.portOk then (1, [])
    else if ¬ e.scriptFound then (1, [])
    else if ¬ e.connectOk then (1, [])
    else
      -- upload + execute happen for this script
      let rc := e.execCode
      if rc ≠ 0 then (rc, [i])
      else
        let r := run_scripts_go env (i + 1) rest
        (r.1, i :: r.2)

def run_scripts (env : Nat → IterEnv) (scripts : List String) :
    Int × List Nat :=
  match scripts with
  | [] => (0, [])   -- `warn(...); return 0`
  | l => run_scripts_go env 0 l

/-! ## Connection with auth fallback (`SSHClient.connect`, sofilab.py
lines 470-511)

The first `paramiko` call passes `password=None`, the key file (when it
exists), `look_for_keys=True`, `allow_agent=True`.  Only
`AuthenticationException` is caught; with a non-empty configured password
the retry passes the password, no `key_filename`, `look_for_keys=False`
and `allow_agent=True`; without a password the exception is re-raised.
`auth` is the oracle deciding each attempt's outcome; the embedding
returns the overall outcome together with the list of attempts made. -/

structure ConnectAttempt where
  password : Option String
  key_filename : Option String
  look_for_keys : Bool
  allow_agent : Bool
  deriving DecidableEq, Repr

inductive AuthOutcome where
  | ok
  | authFail
  | otherErr
  deriving DecidableEq, Repr

inductive ConnectResult where
  | connected
  | authError
  | raised
  deriving DecidableEq, Repr

def sshConnect (auth : ConnectAttempt → AuthOutcome) (password : String)
    (key_filename : Option String) : ConnectResult × List ConnectAttempt :=
  let a1 : ConnectAttempt :=
    { password := none, key_filename := key_filename,
      look_for_keys := true, allow_agent := true }
  match auth a1 with
  | AuthOutcome.ok => (ConnectResult.connected, [a1])
  | AuthOutcome.otherErr => (ConnectResult.raised, [a1])
  | AuthOutcome.authFail =>
    if password ≠ "" then
      let a2 : ConnectAttempt :=
        { password := some password, key_filename := none,
          look_for_keys := false, allow_agent := true }
      match auth a2 with
      | AuthOutcome.ok => (ConnectResult.connected, [a1, a2])
      | AuthOutcome.authFail => (ConnectResult.authError, [a1, a2])
      | AuthOutcome.otherErr => (ConnectResult.raised, [a1, a2])
    else
      (ConnectResult.authError, [a1])

/-! ## Reboot wait state machine (`reboot_server`, sofilab.py lines 976-996)

Down-wait: `waited = 0; while check_port_open: sleep(2); waited += 2;
if waited >= 60: warn(...); break` — the i-th probe result is `downPolls i`;
the loop ends either on a closed port (no warning) or after the probe that
drives `waited` to 60, i.e. after 30 consecutive open probes (warning).
`down_wait_aux polls i k` runs with `k` probes remaining before the
warning; `down_wait` starts at `k = 30 = 60 / 2`.  It returns whether the
warning branch was taken; either way control falls through to up-wait.

Up-wait: `waited = 0; while not check_port_open: sleep(3); waited += 3;
if waited >= wait_seconds: return 1` then `return 0`.  `up_wait_aux` keeps
`remaining = wait_seconds - waited` (so `waited + 3 >= wait_seconds` is
`remaining ≤ 3`). -/

def down_wait_aux (polls : Nat → Bool) : Nat → Nat → Bool
  | _, 0 => true
  | i, k + 1 =>
    if polls i then
      if k = 0 then true else down_wait_aux polls (i + 1) k
    else false

def down_wait (polls : Nat → Bool) : Bool :=
  down_wait_aux polls 0 30

def up_wait_aux (polls : Nat → Bool) : Nat → Nat → Int
  | i, remaining =>
    if polls i then 0
    else
      match remaining with
      | 0 => 1
      | 1 => 1
      | 2 => 1
      | 3 => 1
      | r + 4 => up_wait_aux polls (i + 1) (r + 1)

def up_wait (polls : Nat → Bool) (wait_seconds : Nat) : Int :=
  up_wait_aux polls 0 wait_seconds

/-- The two phases in sequence: the down phase's only output is the warning
flag, which does not influence control flow; the return value of the wait
portion of `reboot_server` is the up phase's result. -/
def reboot_wait (downPolls upPolls : Nat → Bool) (wait_seconds : Nat) :
    Int :=
  let _warned := down_wait downPolls
  up_wait upPolls wait_seconds

/-! ## Remote path normalization (`_sftp_abs`, sofilab.py lines 1065-1086)

Remote paths are embedded as `List Char` so that Python's string
operations (`split('/')`, `rstrip('/')`, concatenation) become provable
list operations.  `splitSlash` is Python's `str.split('/')`;
`collapseStep` is one iteration of the `for p in rp.split('/')` loop
(skip empty and `.` segments, `..` pops via `parts.pop()`, everything
else is appended); `posix_join` is `posixpath.join` for the two-argument
case the source uses. -/

def splitSlash : List Char → List (List Char)
  | [] => [[]]
  | c :: cs =>
    if c = '/' then [] :: splitSlash cs
    else
      match splitSlash cs with
      | [] => [[c]]
      | s :: rest => (c :: s) :: rest

def startsWithChar (l : List Char) (c : Char) : Bool :=
  match l with
  | [] => false
  | x :: _ => x = c

def collapseStep (parts : List (List Char)) (p : List Char) :
    List (List Char) :=
  if p = [] ∨ p = ['.'] then parts
  else if p = ['.', '.'] then parts.dropLast
  else parts ++ [p]

def posix_join (a b : List Char) : List Char :=
  if startsWithChar b '/' then b
  else if a = [] then b
  else if a.getLast? = some '/' then a ++ b
  else a ++ '/' :: b

/-- `_sftp_abs(sftp, remote_path)` with the SFTP home directory passed
explicitly (the source obtains it from `_sftp_home`).  Line by line:
`rp = remote_path or "."`; leading `~` is replaced by home (the source's
`rp.replace("~", home, 1)` under `rp.startswith("~")`); non-absolute
paths go through `posixpath.join(home, rp)`; the split/collapse loop;
finally `"/" + "/".join(parts)`. -/
def sftp_abs (home remote_path : List Char) : List Char :=
  let rp0 := if remote_path = [] then ['.'] else remote_path
  let rp1 := if startsWithChar rp0 '~' then home ++ rp0.tail else rp0
  let rp2 := if startsWithChar rp1 '/' then rp1 else posix_join home rp1
  '/' :: List.intercalate ['/'] (List.foldl collapseStep [] (splitSlash rp2))

/-! ## Ensuring a remote directory (`_ensure_remote_dir`, sofilab.py
lines 1157-1175)

The remote filesystem visible to the SFTP session is modelled as the set
(list) of existing directory paths; `/` (the root, represented as the
parent value `[]`) always exists.  `sftp.stat(p)` succeeds iff `p` is in
the set; `sftp.mkdir(p)` follows POSIX `mkdir`: it fails on an existing
path or a missing parent, and otherwise inserts the path.  The source
swallows `mkdir` failures (`except Exception: pass`), so a failure leaves
the state unchanged.  The embedding logs every path for which `stat`
failed and `mkdir` was attempted, so "no error on the second call" is the
log being empty. -/

abbrev RemoteFS := List (List Char)

def parentChars (l : List Char) : List Char :=
  ((l.reverse.dropWhile (fun c => c ≠ '/')).drop 1).reverse

def fs_mkdir (fs : RemoteFS) (p : List Char) : RemoteFS :=
  if p ∈ fs then fs
  else if parentChars p ∈ fs ∨ parentChars p = [] then p :: fs
  else fs

def rstripSlash (l : List Char) : List Char :=
  (l.reverse.dropWhile (fun c => c = '/')).reverse

/-- Accumulator update of the loop:
`path = p if path == '/' else (path + '/' + p) if path else p`. -/
def ensure_step_path (path p : List Char) : List Char :=
  if path = ['/'] then p
  else if path = [] then p
  else path ++ '/' :: p

/-- Argument passed to `stat`/`mkdir`:
`'/' + path if not path.startswith('/') else path`. -/
def statPathOf (path : List Char) : List Char :=
  if startsWithChar path '/' then path else '/' :: path

def ensure_loop (fs : RemoteFS) (parts : List (List Char))
    (path : List Char) (log : List (List Char)) :
    RemoteFS × List (List Char) :=
  match parts with
  | [] => (fs, log)
  | p :: rest =>
    if p = [] then ensure_loop fs rest ['/'] log
    else
      let path1 := ensure_step_path path p
      let sp := statPathOf path1
      if sp ∈ fs then ensure_loop fs rest path1 log
      else ensure_loop (fs_mkdir fs sp) rest path1 (log ++ [sp])

def ensure_remote_dir (fs : RemoteFS) (remote_dir : List Char) :
    RemoteFS × List (List Char) :=
  let rd := rstripSlash remote_dir
  if rd = [] ∨ rd = ['/'] then (fs, [])
  else ensure_loop fs (splitSlash rd) [] []

/-- The sequence of paths `_ensure_remote_dir` passes to `sftp.stat`,
determined by the directory alone (the loop's probe targets do not depend
on the filesystem state). -/
def stat_paths (parts : List (List Char)) (path : List Char) :
    List (List Char) :=
  match parts with
  | [] => []
  | p :: rest =>
    if p = [] then stat_paths rest ['/']
    else
      let path1 := ensure_step_path path p
      statPathOf path1 :: stat_paths rest path1

/-- The stat/mkdir targets of `ensure_remote_dir fs remote_dir`. -/
def ensure_targets (remote_dir : List Char) : List (List Char) :=
  let rd := rstripSlash remote_dir
  if rd = [] ∨ rd = ['/'] then []
  else stat_paths (splitSlash rd) []

/-! # Theorems -/

/-- C1: the remote execution command built by `execute_remote_script`
removes the uploaded artifact and exits with the script's original exit
status, for every exit status (zero or non-zero): cleanup happens even
when the script fails and does not mask the script's exit code. -/
theorem c1_cleanup_preserves_exit_code (c : Int) (st : ShState)
    (h : st.artifact = true) :
    (execute_remote_script c st).artifact = false ∧
    (execute_remote_script c st).lastCode = c := by
  simp [execute_remote_script, deployCmd, shEval, h]

/-- C1 witness: a script exiting 3 from a state where the artifact exists
ends with the artifact removed and final status 3. -/
theorem c1_cleanup_preserves_exit_code_witness :
    (execute_remote_script 3 ⟨true, 0, 0⟩).artifact = false ∧
    (execute_remote_script 3 ⟨true, 0, 0⟩).lastCode = 3 :=
  c1_cleanup_preserves_exit_code 3 ⟨true, 0, 0⟩ rfl

/-- C2: port resolution returns the configured port when reachable; when it
is unreachable and differs from 22, it returns 22 when 22 is reachable and
fails otherwise; when the configured port is 22 and unreachable it fails
after a single probe (no fallback probe is attempted). -/
theorem c2_determine_ssh_port_spec (isOpen : Nat → Bool) (p : Nat) :
    (isOpen p = true → determine_ssh_port isOpen p = (some p, [p])) ∧
    (isOpen p = false → p ≠ 22 → isOpen 22 = true →
      determine_ssh_port isOpen p = (some 22, [p, 22])) ∧
    (isOpen p = false → p ≠ 22 → isOpen 22 = false →
      determine_ssh_port isOpen p = (none, [p, 22])) ∧
    (isOpen 22 = false → determine_ssh_port isOpen 22 = (none, [22])) := by
  refine ⟨?_, ?_, ?_, ?_⟩ <;> intros <;> simp_all [determine_ssh_port]

/-- C2 witness: with no port reachable, configured port 22 fails after
probing only port 22; configured port 8022 with only 22 reachable falls
back to 22 after probing both. -/
theorem c2_determine_ssh_port_spec_witness :
    determine_ssh_port (fun _ => false) 22 = (none, [22]) ∧
    determine_ssh_port (fun q => q == 22) 8022 = (some 22, [8022, 22]) :=
  ⟨(c2_determine_ssh_port_spec (fun _ => false) 22).2.2.2 rfl,
   (c2_determine_ssh_port_spec (fun q => q == 22) 8022).2.1 rfl
     (by decide) rfl⟩

/-- C6: when the port stays reachable for the whole down-timeout, the
down phase ends with the warning (rather than a failure) and the wait
portion of `reboot_server` returns exactly the up phase's result — for any
down-phase observations at all, the overall result is the up phase's. -/
theorem c6_down_timeout_is_nonfatal (downPolls upPolls : Nat → Bool)
    (w : Nat) (h : ∀ i, downPolls i = true) :
    down_wait downPolls = true ∧
    reboot_wait downPolls upPolls w = up_wait upPolls w := by
  constructor
  · have aux : ∀ k i, down_wait_aux downPolls i k = true := by
      intro k
      induction k with
      | zero => intro i; rfl
      | succ n ih =>
        intro i
        simp [down_wait_aux, h i]
        exact Or.inr (ih (i + 1))
    exact aux 30 0
  · rfl

/-- C6 witness: a host that never goes down during the down phase and is
reachable from the start of the up phase yields warning plus the up-phase
result. -/
theorem c6_down_timeout_is_nonfatal_witness :
    down_wait (fun _ => true) = true ∧
    reboot_wait (fun _ => true) (fun _ => true) 30 =
      up_wait (fun _ => true) 30 :=
  c6_down_timeout_is_nonfatal (fun _ => true) (fun _ => true) 30
    (fun _ => rfl)

/-- C7 counterexample: the claim that every parsed profile port lies in
1–65535 fails on the concrete configuration value `port=0`: `parse_conf`
performs no range validation, so the profile's port is 0. -/
theorem c7_port_range_counterexample :
    ¬ (1 ≤ profile_port (some "0") ∧ profile_port (some "0") ≤ 65535) := by
  decide

/-- C7 (amended): the port defaults to 22 when the `port` key is absent or
its value is not an integer, and otherwise is exactly the parsed integer —
with no range validation, so out-of-range values such as 0 or 70000 are
kept as-is. -/
theorem c7_port_default_amended :
    profile_port none = 22 ∧
    (∀ s, pyInt s = none → profile_port (some s) = 22) ∧
    (∀ s v, pyInt s = some v → profile_port (some s) = v) := by
  refine ⟨rfl, ?_, ?_⟩ <;> intros <;> simp_all [profile_port]

/-- C7 amended witness: a non-integer port value yields 22, and the
out-of-range values 0 and 70000 are kept verbatim. -/
theorem c7_port_default_amended_witness :
    profile_port (some "abc") = 22 ∧ profile_port (some "0") = 0 ∧
    profile_port (some "70000") = 70000 :=
  ⟨c7_port_default_amended.2.1 "abc" (by decide),
   c7_port_default_amended.2.2 "0" 0 (by decide),
   c7_port_default_amended.2.2 "70000" 70000 (by decide)⟩

/-- C9 counterexample: with no command-line override, a per-script mapping
entry that is present but empty is NOT passed to the script: Python's
`script_args_map.get(name) or default_script_args` treats the empty list
as falsy, so the default argument list `["d"]` is used instead of the
mapped `[]`. -/
theorem c9_mapped_args_counterexample :
    ¬ (eff_args none
        (fun n => if n = "foo" then some ([] : List String) else none)
        ["d"] "foo" = []) := by
  decide

/-- C9 (amended): with no command-line override, a non-empty per-script
mapping entry is passed exactly; the default argument list is used both
when no mapping entry exists and when the mapping entry is the empty
list. -/
theorem c9_args_selection_amended (sa : Option (List String))
    (hsa : sa = none ∨ sa = some []) (m : String → Option (List String))
    (d : List String) (name : String) :
    (∀ a, m name = some a → a ≠ [] → eff_args sa m d name = a) ∧
    (m name = none → eff_args sa m d name = d) ∧
    (m name = some [] → eff_args sa m d name = d) := by
  rcases hsa with h | h <;> subst h <;>
    refine ⟨?_, ?_, ?_⟩ <;> intros <;> simp_all [eff_args]

/-- C9 amended witness: a mapped non-empty list `["a"]` is used verbatim;
an unmapped script and an empty-mapped script both get the default. -/
theorem c9_args_selection_amended_witness :
    eff_args none (fun n => if n = "foo" then some ["a"] else none)
      ["d"] "foo" = ["a"] ∧
    eff_args none (fun n => if n = "foo" then some ["a"] else none)
      ["d"] "bar" = ["d"] ∧
    eff_args none (fun n => if n = "foo" then some ([] : List String)
      else none) ["d"] "foo" = ["d"] :=
  ⟨(c9_args_selection_amended none (Or.inl rfl)
      (fun n => if n = "foo" then some ["a"] else none) ["d"] "foo").1
      ["a"] (by decide) (by decide),
   (c9_args_selection_amended none (Or.inl rfl)
      (fun n => if n = "foo" then some ["a"] else none) ["d"] "bar").2.1
      (by decide),
   (c9_args_selection_amended none (Or.inl rfl)
      (fun n => if n = "foo" then some ([] : List String) else none)
      ["d"] "foo").2.2 (by decide)⟩

/-- C10: when SFTP is unavailable and the streaming fallback runs,
`upload_script` returns the remote path as a success for every exit status
of the remote write command — in particular for a failing (non-zero)
remote command — and the outcome does not depend on that status at all. -/
theorem c10_fallback_ignores_exit_status (c : Int) (name dir : String)
    (_h : c ≠ 0) :
    upload_script false c name dir =
      UploadOutcome.ok (dir ++ "/" ++ name) ∧
    (∀ c2, upload_script false c name dir = upload_script false c2 name dir) := by
  exact ⟨rfl, fun _ => rfl⟩

/-- C10 witness: a fallback upload whose remote `mkdir && cat` command
exits 7 is still reported as a successful upload of the remote path. -/
theorem c10_fallback_ignores_exit_status_witness :
    upload_script false 7 "s.sh" ".sofilab_scripts" =
      UploadOutcome.ok ".sofilab_scripts/s.sh" ∧
    (∀ c2, upload_script false 7 "s.sh" ".sofilab_scripts" =
      upload_script false c2 "s.sh" ".sofilab_scripts") :=
  c10_fallback_ignores_exit_status 7 "s.sh" ".sofilab_scripts" (by decide)

lemma run_scripts_go_all_zero (env : Nat → IterEnv)
    (hinfra : ∀ j, (env j).portOk = true ∧ (env j).scriptFound = true ∧
      (env j).connectOk = true) :
    ∀ (l : List String) (i : Nat),
      (∀ j, j < l.length → (env (i + j)).execCode = 0) →
      run_scripts_go env i l = (0, List.range' i l.length) := by
  intro l
  induction l with
  | nil => intro i _; rfl
  | cons s rest ih =>
    intro i hz
    obtain ⟨hp, hf, hc⟩ := hinfra i
    have h0 : (env i).execCode = 0 := by simpa using hz 0 (Nat.succ_pos _)
    have hz' : ∀ j, j < rest.length → (env (i + 1 + j)).execCode = 0 := by
      intro j hj
      have h2 : i + 1 + j = i + (j + 1) := by omega
      rw [h2]
      exact hz (j + 1) (by simpa using Nat.succ_lt_succ hj)
    simp [run_scripts_go, hp, hf, hc, h0, ih (i + 1) hz',
      List.range'_succ]

lemma run_scripts_go_first_failure (env : Nat → IterEnv)
    (hinfra : ∀ j, (env j).portOk = true ∧ (env j).scriptFound = true ∧
      (env j).connectOk = true) :
    ∀ (l : List String) (k i : Nat) (c : Int), k < l.length →
      (∀ j, j < k → (env (i + j)).execCode = 0) →
      (env (i + k)).execCode = c → c ≠ 0 →
      run_scripts_go env i l = (c, List.range' i (k + 1)) := by
  intro l
  induction l with
  | nil => intro k i c hk; exact absurd hk (by simp)
  | cons s rest ih =>
    intro k i c hk hz hcode hcne
    obtain ⟨hp, hf, hc⟩ := hinfra i
    cases k with
    | zero =>
      have h0 : (env i).execCode = c := by simpa using hcode
      simp [run_scripts_go, hp, hf, hc, h0, hcne]
    | succ k' =>
      have h0 : (env i).execCode = 0 := by simpa using hz 0 (Nat.succ_pos _)
      have hz' : ∀ j, j < k' → (env (i + 1 + j)).execCode = 0 := by
        intro j hj
        have h2 : i + 1 + j = i + (j + 1) := by omega
        rw [h2]
        exact hz (j + 1) (by simpa using Nat.succ_lt_succ hj)
      have hcode' : (env (i + 1 + k')).execCode = c := by
        have h2 : i + 1 + k' = i + (k' + 1) := by omega
        rw [h2]
        exact hcode
      have hk' : k' < rest.length := by simpa using Nat.lt_of_succ_lt_succ hk
      simp [run_scripts_go, hp, hf, hc, h0,
        ih k' (i + 1) c hk' hz' hcode' hcne, List.range'_succ]

/-- C3: with port resolution, script lookup and connection succeeding for
every iteration, the multi-script runner executes scripts strictly in list
order: if every script exits zero the runner returns 0 having processed
indices `0, 1, …, n-1` in order; if the scripts before index `k` exit zero
and script `k` exits `c ≠ 0`, the runner returns `c` and only the scripts
up to and including `k` were ever uploaded or executed. -/
theorem c3_run_scripts_fail_fast (env : Nat → IterEnv)
    (scripts : List String)
    (hinfra : ∀ j, (env j).portOk = true ∧ (env j).scriptFound = true ∧
      (env j).connectOk = true) :
    ((∀ j, j < scripts.length → (env j).execCode = 0) →
      run_scripts env scripts = (0, List.range scripts.length)) ∧
    (∀ k c, k < scripts.length →
      (∀ j, j < k → (env j).execCode = 0) →
      (env k).execCode = c → c ≠ 0 →
      run_scripts env scripts = (c, List.range (k + 1))) := by
  constructor
  · intro hz
    cases scripts with
    | nil => rfl
    | cons s rest =>
      have hz0 : ∀ j, j < (s :: rest).length → (env (0 + j)).execCode = 0 := by
        intro j hj
        simpa using hz j hj
      have := run_scripts_go_all_zero env hinfra (s :: rest) 0 hz0
      simpa [run_scripts, List.range_eq_range'] using this
  · intro k c hk hz hcode hcne
    cases scripts with
    | nil => exact absurd hk (by simp)
    | cons s rest =>
      have hz0 : ∀ j, j < k → (env (0 + j)).execCode = 0 := by
        intro j hj
        simpa using hz j hj
      have hcode0 : (env (0 + k)).execCode = c := by simpa using hcode
      have := run_scripts_go_first_failure env hinfra (s :: rest) k 0 c
        hk hz0 hcode0 hcne
      simpa [run_scripts, List.range_eq_range'] using this

/-- C3 witness: for `["x.sh", "y.sh"]` where the first script exits 3, the
runner returns 3 and only script 0 was uploaded/executed; when both exit
zero the runner returns 0 after executing 0 then 1. -/
theorem c3_run_scripts_fail_fast_witness :
    run_scripts (fun i => ⟨true, true, true, if i = 0 then 3 else 0⟩)
      ["x.sh", "y.sh"] = (3, [0]) ∧
    run_scripts (fun _ => ⟨true, true, true, 0⟩) ["x.sh", "y.sh"] =
      (0, [0, 1]) := by
  constructor
  · have := (c3_run_scripts_fail_fast
        (fun i => ⟨true, true, true, if i = 0 then 3 else 0⟩)
        ["x.sh", "y.sh"] (fun _ => ⟨rfl, rfl, rfl⟩)).2 0 3 (by decide)
        (fun j hj => absurd hj (by omega)) rfl (by decide)
    simpa using this
  · have := (c3_run_scripts_fail_fast (fun _ => ⟨true, true, true, 0⟩)
        ["x.sh", "y.sh"] (fun _ => ⟨rfl, rfl, rfl⟩)).1
        (fun _ _ => rfl)
    simpa using this

/-- C4 counterexample: the claim that the password retry disables both key
and agent authentication is false on the code: with a configured password
and an oracle failing key/agent authentication, the single retry attempt
is made with `allow_agent=True` (only `look_for_keys` is disabled). -/
theorem c4_agent_disabled_counterexample :
    ¬ (∀ a ∈ (sshConnect
        (fun a => if a.password = none then AuthOutcome.authFail
          else AuthOutcome.ok) "pw" none).2.drop 1,
        a.look_for_keys = false ∧ a.allow_agent = false) := by
  decide

/-- C4 (amended): `connect` first attempts key-file/agent authentication
with no password; exactly when that attempt raises an authentication
failure and a password is configured, it retries once with password
authentication, no key file and `look_for_keys` disabled — but with agent
authentication still enabled.  With no configured password the
authentication failure propagates, and non-authentication errors propagate
without any retry. -/
theorem c4_auth_fallback_amended (auth : ConnectAttempt → AuthOutcome)
    (password : String) (kf : Option String) :
    ((sshConnect auth password kf).2.head? = some ⟨none, kf, true, true⟩) ∧
    (auth ⟨none, kf, true, true⟩ = AuthOutcome.ok →
      sshConnect auth password kf =
        (ConnectResult.connected, [⟨none, kf, true, true⟩])) ∧
    (auth ⟨none, kf, true, true⟩ = AuthOutcome.otherErr →
      sshConnect auth password kf =
        (ConnectResult.raised, [⟨none, kf, true, true⟩])) ∧
    (auth ⟨none, kf, true, true⟩ = AuthOutcome.authFail → password = "" →
      sshConnect auth password kf =
        (ConnectResult.authError, [⟨none, kf, true, true⟩])) ∧
    (auth ⟨none, kf, true, true⟩ = AuthOutcome.authFail → password ≠ "" →
      (sshConnect auth password kf).2 =
        [⟨none, kf, true, true⟩, ⟨some password, none, false, true⟩]) ∧
    ((sshConnect auth password kf).2.length = 2 →
      auth ⟨none, kf, true, true⟩ = AuthOutcome.authFail ∧
        password ≠ "") := by
  unfold sshConnect
  rcases ho : auth ⟨none, kf, true, true⟩ <;>
    by_cases hp : password = "" <;>
      rcases hr : auth ⟨some password, none, false, true⟩ <;>
        simp_all

/-- C4 amended witness: with password `"pw"` and an oracle that fails the
passwordless attempt and accepts the password attempt, the two attempts
are exactly the key/agent attempt followed by the password attempt with
`look_for_keys=False`, `allow_agent=True`. -/
theorem c4_auth_fallback_amended_witness :
    (sshConnect (fun a => if a.password = none then AuthOutcome.authFail
      else AuthOutcome.ok) "pw" none).2 =
      [⟨none, none, true, true⟩, ⟨some "pw", none, false, true⟩] :=
  (c4_auth_fallback_amended
    (fun a => if a.password = none then AuthOutcome.authFail
      else AuthOutcome.ok) "pw" none).2.2.2.2.1 rfl (by decide)

lemma splitSlash_ne_nil (l : List Char) : splitSlash l ≠ [] := by
  induction l with
  | nil => simp [splitSlash]
  | cons c cs ih =>
    by_cases h : c = '/'
    · simp [splitSlash, h]
    · simp only [splitSlash, if_neg h]
      cases hs : splitSlash cs <;> simp

lemma splitSlash_append (u v : List Char) :
    splitSlash (u ++ '/' :: v) = splitSlash u ++ splitSlash v := by
  induction u with
  | nil => simp [splitSlash]
  | cons c cs ih =>
    by_cases h : c = '/'
    · simp [splitSlash, h, ih]
    · simp only [List.cons_append, splitSlash, if_neg h, List.append_eq]
      rw [ih]
      cases hs : splitSlash cs with
      | nil => exact absurd hs (splitSlash_ne_nil cs)
      | cons s rest => simp

lemma splitSlash_no_slash (s : List Char) (h : '/' ∉ s) :
    splitSlash s = [s] := by
  induction s with
  | nil => rfl
  | cons c cs ih =>
    have hc : ¬ (c = '/') := fun hc => h (by simp [hc])
    have hcs : '/' ∉ cs := fun hm => h (List.mem_cons_of_mem c hm)
    simp only [splitSlash, if_neg hc, ih hcs]

lemma mem_splitSlash_no_slash (l : List Char) :
    ∀ p ∈ splitSlash l, '/' ∉ p := by
  induction l with
  | nil =>
    intro p hp
    simp [splitSlash] at hp
    simp [hp]
  | cons c cs ih =>
    intro p hp
    by_cases h : c = '/'
    · simp [splitSlash, h] at hp
      rcases hp with hp | hp
      · simp [hp]
      · exact ih p hp
    · simp only [splitSlash, if_neg h] at hp
      cases hs : splitSlash cs with
      | nil => exact absurd hs (splitSlash_ne_nil cs)
      | cons s rest =>
        rw [hs] at hp
        rcases List.mem_cons.mp hp with hp | hp
        · subst hp
          intro hmem
          rcases List.mem_cons.mp hmem with h1 | h1
          · exact h h1.symm
          · exact ih s (by rw [hs]; exact List.mem_cons_self s rest) h1
        · exact ih p (by rw [hs]; exact List.mem_cons_of_mem s hp)

lemma collapseStep_nil_seg (a : List (List Char)) : collapseStep a [] = a := by
  simp [collapseStep]

lemma collapseStep_dot (a : List (List Char)) : collapseStep a ['.'] = a := by
  simp [collapseStep]

lemma collapseStep_dotdot (a : List (List Char)) :
    collapseStep a ['.', '.'] = a.dropLast := by
  simp [collapseStep]

lemma collapseStep_push (a : List (List Char)) (s : List Char)
    (h1 : s ≠ []) (h2 : s ≠ ['.']) (h3 : s ≠ ['.', '.']) :
    collapseStep a s = a ++ [s] := by
  simp [collapseStep, h1, h2, h3]

lemma foldl_collapse_skip_nil (a : List (List Char))
    (l : List (List Char)) :
    List.foldl collapseStep a ([] :: l) = List.foldl collapseStep a l := by
  simp [collapseStep]

lemma startsWithChar_append_left (u w : List Char)
    (h : startsWithChar u '/' = true) :
    startsWithChar (u ++ w) '/' = true := by
  cases u <;> simp_all [startsWithChar]

lemma sftp_abs_absolute (home p : List Char)
    (hp : startsWithChar p '/' = true) :
    sftp_abs home p =
      '/' :: List.intercalate ['/']
        (List.foldl collapseStep [] (splitSlash p)) := by
  have hne : p ≠ [] := by cases p <;> simp_all [startsWithChar]
  have h2 : startsWithChar p '~' = false := by
    cases p with
    | nil => simp [startsWithChar]
    | cons x l =>
      have hx : x = '/' := by simpa [startsWithChar] using hp
      subst hx
      simp [startsWithChar]
  unfold sftp_abs
  simp [hne, h2, hp]

lemma sftp_abs_tilde (home rest : List Char)
    (hh : startsWithChar home '/' = true) :
    sftp_abs home ('~' :: rest) = sftp_abs home (home ++ rest) := by
  have habs : startsWithChar (home ++ rest) '/' = true :=
    startsWithChar_append_left home rest hh
  rw [sftp_abs_absolute home (home ++ rest) habs]
  have h1 : startsWithChar ('~' :: rest) '~' = true := rfl
  unfold sftp_abs
  simp [h1, habs]

lemma posix_join_collapse (home p : List Char) (hh : home ≠ [])
    (hp1 : startsWithChar p '/' = false) :
    List.foldl collapseStep [] (splitSlash (posix_join home p)) =
      List.foldl collapseStep [] (splitSlash (home ++ '/' :: p)) := by
  induction home using List.reverseRecOn with
  | nil => exact absurd rfl hh
  | append_singleton xs x _ =>
    by_cases hx : x = '/'
    · subst hx
      have hjoin : posix_join (xs ++ ['/']) p = (xs ++ ['/']) ++ p := by
        unfold posix_join
        rw [if_neg (by simp [hp1]), if_neg (by simp),
          if_pos (List.getLast?_concat xs)]
      rw [hjoin]
      rw [show (xs ++ ['/']) ++ p = xs ++ '/' :: p by simp,
        show (xs ++ ['/']) ++ '/' :: p = xs ++ '/' :: ('/' :: p) by simp,
        splitSlash_append, splitSlash_append]
      rw [List.foldl_append, List.foldl_append,
        show splitSlash ('/' :: p) = [] :: splitSlash p by simp [splitSlash],
        foldl_collapse_skip_nil]
    · have hjoin : posix_join (xs ++ [x]) p = (xs ++ [x]) ++ '/' :: p := by
        unfold posix_join
        rw [if_neg (by simp [hp1]), if_neg (by simp),
          if_neg (by simp [List.getLast?_concat, hx])]
      rw [hjoin]

lemma sftp_abs_relative (home p : List Char)
    (hh : startsWithChar home '/' = true)
    (hp1 : startsWithChar p '/' = false)
    (hp2 : startsWithChar p '~' = false) (hne : p ≠ []) :
    sftp_abs home p = sftp_abs home (home ++ '/' :: p) := by
  have hhe : home ≠ [] := by cases home <;> simp_all [startsWithChar]
  have habs : startsWithChar (home ++ '/' :: p) '/' = true :=
    startsWithChar_append_left home _ hh
  rw [sftp_abs_absolute home _ habs]
  unfold sftp_abs
  simp [hne, hp1, hp2, posix_join_collapse home p hhe hp1]

lemma sftp_abs_drop_dot (home u v : List Char)
    (hu : startsWithChar u '/' = true) :
    sftp_abs home (u ++ '/' :: '.' :: '/' :: v) =
      sftp_abs home (u ++ '/' :: v) := by
  have e2 : splitSlash ('.' :: '/' :: v) = ['.'] :: splitSlash v := by
    simp [splitSlash]
  rw [sftp_abs_absolute home _ (startsWithChar_append_left u _ hu),
    sftp_abs_absolute home _ (startsWithChar_append_left u _ hu)]
  rw [splitSlash_append, splitSlash_append, e2]
  rw [List.foldl_append, List.foldl_append, List.foldl_cons,
    collapseStep_dot]

lemma sftp_abs_pop_dotdot (home u s v : List Char)
    (hu : startsWithChar u '/' = true) (hs : '/' ∉ s) (h1 : s ≠ [])
    (h2 : s ≠ ['.']) (h3 : s ≠ ['.', '.']) :
    sftp_abs home (u ++ '/' :: (s ++ '/' :: '.' :: '.' :: '/' :: v)) =
      sftp_abs home (u ++ '/' :: v) := by
  have e3 : splitSlash ('.' :: '.' :: '/' :: v) =
      ['.', '.'] :: splitSlash v := by
    simp [splitSlash]
  rw [sftp_abs_absolute home _ (startsWithChar_append_left u _ hu),
    sftp_abs_absolute home _ (startsWithChar_append_left u _ hu)]
  rw [splitSlash_append, splitSlash_append, splitSlash_append,
    splitSlash_no_slash s hs, e3]
  rw [List.foldl_append, List.foldl_append, List.foldl_append,
    List.foldl_cons, List.foldl_cons, List.foldl_nil,
    collapseStep_push _ s h1 h2 h3, collapseStep_dotdot,
    List.dropLast_concat]

/-- C5: `_sftp_abs` resolves a path beginning with `~` against the remote
home directory, resolves relative paths against home, drops literal `.`
segments, and makes each `..` segment pop the preceding segment, purely
textually on the path string. -/
theorem c5_sftp_abs_lexical_normalization (home : List Char)
    (hh : startsWithChar home '/' = true) :
    (∀ rest, sftp_abs home ('~' :: rest) = sftp_abs home (home ++ rest)) ∧
    (∀ p, p ≠ [] → startsWithChar p '/' = false →
      startsWithChar p '~' = false →
      sftp_abs home p = sftp_abs home (home ++ '/' :: p)) ∧
    (∀ u v, startsWithChar u '/' = true →
      sftp_abs home (u ++ '/' :: '.' :: '/' :: v) =
        sftp_abs home (u ++ '/' :: v)) ∧
    (∀ u s v, startsWithChar u '/' = true → '/' ∉ s → s ≠ [] →
      s ≠ ['.'] → s ≠ ['.', '.'] →
      sftp_abs home (u ++ '/' :: (s ++ '/' :: '.' :: '.' :: '/' :: v)) =
        sftp_abs home (u ++ '/' :: v)) :=
  ⟨fun rest => sftp_abs_tilde home rest hh,
   fun p hne hp1 hp2 => sftp_abs_relative home p hh hp1 hp2 hne,
   fun u v hu => sftp_abs_drop_dot home u v hu,
   fun u s v hu hs h1 h2 h3 =>
     sftp_abs_pop_dotdot home u s v hu hs h1 h2 h3⟩

/-- C5 witness: with home `/root`, the path `~/x` equals `/root/x` after
substituting home for the tilde; the relative path `rel` resolves under
home; a `.` segment inside `/a/./b` is dropped; and `x/..` inside
`/a/x/../b` pops `x`. -/
theorem c5_sftp_abs_lexical_normalization_witness :
    sftp_abs "/root".data ('~' :: "/x".data) =
      sftp_abs "/root".data ("/root".data ++ "/x".data) ∧
    sftp_abs "/root".data "rel".data =
      sftp_abs "/root".data ("/root".data ++ '/' :: "rel".data) ∧
    sftp_abs "/root".data ("/a".data ++ '/' :: '.' :: '/' :: "b".data) =
      sftp_abs "/root".data ("/a".data ++ '/' :: "b".data) ∧
    sftp_abs "/root".data
        ("/a".data ++ '/' :: ("x".data ++ '/' :: '.' :: '.' :: '/' :: "b".data)) =
      sftp_abs "/root".data ("/a".data ++ '/' :: "b".data) :=
  ⟨(c5_sftp_abs_lexical_normalization "/root".data (by decide)).1 "/x".data,
   (c5_sftp_abs_lexical_normalization "/root".data (by decide)).2.1
     "rel".data (by decide) (by decide) (by decide),
   (c5_sftp_abs_lexical_normalization "/root".data (by decide)).2.2.1
     "/a".data "b".data (by decide),
   (c5_sftp_abs_lexical_normalization "/root".data (by decide)).2.2.2
     "/a".data "x".data "b".data (by decide) (by decide) (by decide)
     (by decide) (by decide)⟩

lemma startsWithChar_cons (x : Char) (l : List Char) (c : Char) :
    startsWithChar (x :: l) c = decide (x = c) := rfl

lemma dropWhile_until_slash (t : List Char) :
    ∀ (r : List Char), (∀ a ∈ r, a ≠ '/') →
      List.dropWhile (fun c => c ≠ '/') (r ++ '/' :: t) = '/' :: t := by
  intro r
  induction r with
  | nil =>
    intro _
    rw [List.nil_append]
    exact List.dropWhile_cons_of_neg (by simp)
  | cons a r ih =>
    intro h
    have ha : ¬ (a = '/') := h a (List.mem_cons_self a r)
    rw [List.cons_append, List.dropWhile_cons_of_pos (by simp [ha])]
    exact ih (fun b hb => h b (List.mem_cons_of_mem a hb))

lemma parentChars_append (x p : List Char) (hp : '/' ∉ p) :
    parentChars (x ++ '/' :: p) = x := by
  have hall : ∀ a ∈ p.reverse, a ≠ '/' := by
    intro a ha h
    exact hp (h ▸ List.mem_reverse.mp ha)
  unfold parentChars
  rw [List.reverse_append, List.reverse_cons, List.append_assoc,
    List.singleton_append, dropWhile_until_slash x.reverse p.reverse hall]
  simp

lemma statPathOf_no_slash (p : List Char) (hp : '/' ∉ p) (hne : p ≠ []) :
    statPathOf p = '/' :: p := by
  cases p with
  | nil => exact absurd rfl hne
  | cons c l =>
    have hc : ¬ (c = '/') := fun h => hp (by simp [h])
    simp [statPathOf, startsWithChar, hc]

lemma statPathOf_absolute (p : List Char)
    (h : startsWithChar p '/' = true) : statPathOf p = p := by
  simp [statPathOf, h]

lemma parent_statPathOf_step (path p : List Char) (hne : path ≠ [])
    (hp : '/' ∉ p) :
    parentChars (statPathOf (path ++ '/' :: p)) = statPathOf path := by
  cases path with
  | nil => exact absurd rfl hne
  | cons c t =>
    by_cases hc : c = '/'
    · subst hc
      have h1 : startsWithChar (('/' :: t) ++ '/' :: p) '/' = true := rfl
      rw [statPathOf_absolute _ h1, statPathOf_absolute ('/' :: t) rfl]
      exact parentChars_append ('/' :: t) p hp
    · have h1 : startsWithChar (c :: (t ++ '/' :: p)) '/' = false := by
        rw [startsWithChar_cons]
        simp [hc]
      have h2 : startsWithChar (c :: t) '/' = false := by
        rw [startsWithChar_cons]
        simp [hc]
      rw [List.cons_append]
      rw [show statPathOf (c :: (t ++ '/' :: p)) =
          '/' :: (c :: (t ++ '/' :: p)) from by simp [statPathOf, h1]]
      rw [show ('/' :: (c :: (t ++ '/' :: p))) =
          ('/' :: c :: t) ++ '/' :: p from by simp]
      rw [parentChars_append ('/' :: c :: t) p hp]
      simp [statPathOf, h2]

lemma parentChars_root_child (p : List Char) (hp : '/' ∉ p) :
    parentChars ('/' :: p) = [] :=
  parentChars_append [] p hp

lemma fs_mkdir_insert (fs : RemoteFS) (p : List Char) (hnp : p ∉ fs)
    (hpar : parentChars p ∈ fs ∨ parentChars p = []) :
    fs_mkdir fs p = p :: fs := by
  unfold fs_mkdir
  rw [if_neg hnp, if_pos hpar]

lemma ensure_loop_no_mkdir (fs : RemoteFS) :
    ∀ (parts : List (List Char)) (path : List Char)
      (log : List (List Char)),
      (∀ q ∈ stat_paths parts path, q ∈ fs) →
      ensure_loop fs parts path log = (fs, log) := by
  intro parts
  induction parts with
  | nil => intro path log _; rfl
  | cons p rest ih =>
    intro path log hall
    by_cases hp : p = []
    · subst hp
      simp only [stat_paths, if_pos rfl] at hall
      simp only [ensure_loop, if_pos rfl]
      exact ih ['/'] log hall
    · simp only [stat_paths, if_neg hp, List.forall_mem_cons] at hall
      simp only [ensure_loop, if_neg hp, if_pos hall.1]
      exact ih _ log hall.2

lemma ensure_loop_creates :
    ∀ (parts : List (List Char)) (path : List Char) (fs : RemoteFS)
      (log : List (List Char)),
      (∀ p ∈ parts, '/' ∉ p) →
      (path = [] ∨ path = ['/'] ∨ statPathOf path ∈ fs) →
      (∀ q ∈ fs, q ∈ (ensure_loop fs parts path log).1) ∧
      (∀ q ∈ stat_paths parts path, q ∈ (ensure_loop fs parts path log).1) := by
  intro parts
  induction parts with
  | nil =>
    intro path fs log _ _
    exact ⟨fun q hq => hq, by simp [stat_paths]⟩
  | cons p rest ih =>
    intro path fs log hns hinv
    have hnsp : '/' ∉ p := hns p (List.mem_cons_self p rest)
    have hnsr : ∀ q ∈ rest, '/' ∉ q :=
      fun q h => hns q (List.mem_cons_of_mem p h)
    by_cases hp : p = []
    · subst hp
      simp only [ensure_loop, stat_paths, if_pos rfl]
      exact ih ['/'] fs log hnsr (Or.inr (Or.inl rfl))
    · have hpar : parentChars (statPathOf (ensure_step_path path p)) ∈ fs ∨
          parentChars (statPathOf (ensure_step_path path p)) = [] := by
        by_cases hroot : path = ['/']
        · subst hroot
          rw [show ensure_step_path ['/'] p = p from by
              simp [ensure_step_path]]
          rw [statPathOf_no_slash p hnsp hp]
          exact Or.inr (parentChars_root_child p hnsp)
        · by_cases hnil : path = []
          · subst hnil
            rw [show ensure_step_path [] p = p from by
                simp [ensure_step_path]]
            rw [statPathOf_no_slash p hnsp hp]
            exact Or.inr (parentChars_root_child p hnsp)
          · have hmem : statPathOf path ∈ fs := by
              rcases hinv with h | h | h
              · exact absurd h hnil
              · exact absurd h hroot
              · exact h
            rw [show ensure_step_path path p = path ++ '/' :: p from by
                simp [ensure_step_path, hroot, hnil]]
            rw [parent_statPathOf_step path p hnil hnsp]
            exact Or.inl hmem
      by_cases hmem1 : statPathOf (ensure_step_path path p) ∈ fs
      · simp only [ensure_loop, stat_paths, if_neg hp, if_pos hmem1]
        have hrec := ih (ensure_step_path path p) fs log hnsr
          (Or.inr (Or.inr hmem1))
        refine ⟨hrec.1, ?_⟩
        intro q hq
        rcases List.mem_cons.mp hq with hq | hq
        · exact hq ▸ hrec.1 _ hmem1
        · exact hrec.2 q hq
      · simp only [ensure_loop, stat_paths, if_neg hp, if_neg hmem1]
        rw [fs_mkdir_insert fs _ hmem1 hpar]
        have hinv1 : ensure_step_path path p = [] ∨
            ensure_step_path path p = ['/'] ∨
            statPathOf (ensure_step_path path p) ∈
              statPathOf (ensure_step_path path p) :: fs :=
          Or.inr (Or.inr (List.mem_cons_self _ _))
        have hrec := ih (ensure_step_path path p)
          (statPathOf (ensure_step_path path p) :: fs) (log ++ [statPathOf (ensure_step_path path p)]) hnsr hinv1
        refine ⟨fun q hq => hrec.1 q (List.mem_cons_of_mem _ hq), ?_⟩
        intro q hq
        rcases List.mem_cons.mp hq with hq | hq
        · exact hq ▸ hrec.1 _ (List.mem_cons_self _ _)
        · exact hrec.2 q hq

/-- C8: ensuring a remote directory is idempotent: a second call on the
same path performs no mkdir (its stat/mkdir failure log is empty) and
leaves the filesystem exactly as the first call left it; and when the
directory (with all its ancestors) already exists, the call leaves the
remote state unchanged and performs no mkdir at all. -/
theorem c8_ensure_remote_dir_idempotent (fs : RemoteFS)
    (remote_dir : List Char) :
    (ensure_remote_dir (ensure_remote_dir fs remote_dir).1 remote_dir =
      ((ensure_remote_dir fs remote_dir).1, [])) ∧
    ((∀ q ∈ ensure_targets remote_dir, q ∈ fs) →
      ensure_remote_dir fs remote_dir = (fs, [])) := by
  constructor
  · by_cases htriv : rstripSlash remote_dir = [] ∨
        rstripSlash remote_dir = ['/']
    · simp [ensure_remote_dir, htriv]
    · have hcreated := ensure_loop_creates (splitSlash (rstripSlash remote_dir))
        [] fs [] (mem_splitSlash_no_slash _) (Or.inl rfl)
      have h1 : ensure_remote_dir fs remote_dir =
          ensure_loop fs (splitSlash (rstripSlash remote_dir)) [] [] := by
        simp [ensure_remote_dir, htriv]
      rw [h1]
      have h2 : ensure_remote_dir
          (ensure_loop fs (splitSlash (rstripSlash remote_dir)) [] []).1
          remote_dir =
          ensure_loop (ensure_loop fs (splitSlash (rstripSlash remote_dir)) [] []).1
            (splitSlash (rstripSlash remote_dir)) [] [] := by
        simp [ensure_remote_dir, htriv]
      rw [h2]
      exact ensure_loop_no_mkdir _ _ [] [] hcreated.2
  · intro hall
    by_cases htriv : rstripSlash remote_dir = [] ∨
        rstripSlash remote_dir = ['/']
    · simp [ensure_remote_dir, htriv]
    · have h1 : ensure_remote_dir fs remote_dir =
          ensure_loop fs (splitSlash (rstripSlash remote_dir)) [] [] := by
        simp [ensure_remote_dir, htriv]
      rw [h1]
      refine ensure_loop_no_mkdir fs _ [] [] ?_
      intro q hq
      refine hall q ?_
      simp [ensure_targets, htriv]
      exact hq

/-- C8 witness: creating `/a/b` on an empty remote filesystem and calling
again changes nothing and attempts no mkdir; calling on a filesystem
already containing `/a` and `/a/b` leaves it unchanged with no mkdir. -/
theorem c8_ensure_remote_dir_idempotent_witness :
    ensure_remote_dir (ensure_remote_dir [] "/a/b".data).1 "/a/b".data =
      ((ensure_remote_dir [] "/a/b".data).1, []) ∧
    ensure_remote_dir ["/a".data, "/a/b".data] "/a/b".data =
      (["/a".data, "/a/b".data], []) :=
  ⟨(c8_ensure_remote_dir_idempotent [] "/a/b".data).1,
   (c8_ensure_remote_dir_idempotent ["/a".data, "/a/b".data]
     "/a/b".data).2 (by decide)⟩

end Sofilab
